import Mathlib

/-!
Shallow embedding of the scheduling core of the workflow-orchestration
engine (the airflow/models package): the DAG graph model, the
TaskInstance clearing primitive, the DagBag loader, the Pool slot
arithmetic and the XCom key/value channel, together with proofs of the
specified properties.

Datetimes are modelled as integers (minutes since an epoch); database
sessions are modelled as explicit record state threaded through the
operations; queries become list filters.
-/

namespace Airflow

/-- The task-instance / dag-run / job state machine labels
(airflow.utils.state.State). The Python value State.NONE is literally
None; it is the constructor TIState.none here. -/
inductive TIState where
  | none
  | scheduled
  | queued
  | running
  | success
  | failed
  | shutdown
  | up_for_retry
  | skipped
deriving DecidableEq, Repr

/-- Modelled from the spec: a Task (BaseOperator is declared outside the
source set) carries an identifier unique within its DAG, upstream and
downstream identifier lists and a retry count. -/
structure Task where
  task_id : String
  upstream_ids : List String
  downstream_ids : List String
  retries : Int
deriving DecidableEq, Repr

/-- Modelled from the spec: the timezone conversions of
airflow.utils.timezone (make_naive, make_aware composed with
convert_to_utc). The spec requires the conversions between absolute
instants and DAG-local naive times to be correct across transitions, so
they are modelled as mutually inverse maps. -/
structure Timezone where
  toLocal : Int → Int
  fromLocal : Int → Int
  from_to : ∀ t, fromLocal (toLocal t) = t
  to_from : ∀ l, toLocal (fromLocal l) = l

/-- The normalized _schedule_interval of a DAG: None for the @once
alias, a timedelta, or a cron expression. A cron expression (evaluated
by the external croniter library on naive local datetimes) is modelled
by its firing set, a periodic subset of local time: it fires at local
instants congruent to phase modulo period. -/
inductive ScheduleInterval where
  | once
  | delta (d : Int)
  | cron (period : Int) (phase : Int)
deriving Repr

/-- A DAG: identifier, schedule metadata, the task collection
(task_dict in insertion order), the partial marker set by sub_dag, and
the directly nested sub-DAGs (the subdag of each SubDagOperator task,
modelled as a separate list per the spec design note on closed
polymorphic task variants). -/
inductive DAG where
  | mk (dag_id : String) (schedule : ScheduleInterval) (tz : Timezone)
       (tasks : List Task) (partial_flag : Bool) (direct_subdags : List DAG)

def DAG.dag_id : DAG → String
  | .mk i _ _ _ _ _ => i

def DAG.schedule : DAG → ScheduleInterval
  | .mk _ s _ _ _ _ => s

def DAG.tz : DAG → Timezone
  | .mk _ _ z _ _ _ => z

def DAG.tasks : DAG → List Task
  | .mk _ _ _ ts _ _ => ts

def DAG.partial_flag : DAG → Bool
  | .mk _ _ _ _ p _ => p

def DAG.direct_subdags : DAG → List DAG
  | .mk _ _ _ _ _ sds => sds

/-- DAG.task_ids. -/
def DAG.task_ids (dag : DAG) : List String :=
  dag.tasks.map Task.task_id

/-- DAG.has_task. -/
def DAG.has_task (dag : DAG) (task_id : String) : Bool :=
  dag.tasks.any (fun t => t.task_id == task_id)

/-- DAG.get_task: the task with the given id, if present (the Python
method raises when absent; callers in the modelled code guard with
has_task). -/
def DAG.get_task (dag : DAG) (task_id : String) : Option Task :=
  dag.tasks.find? (fun t => t.task_id == task_id)

/-- The transitively flattened subdags property of a DAG (each
SubDagOperator contributes its subdag and, recursively, that subdag's
own subdags). -/
def DAG.subdags : DAG → List DAG
  | .mk _ _ _ _ _ sds => subdagsList sds
where
  subdagsList : List DAG → List DAG
  | [] => []
  | d :: ds => d :: (DAG.subdags d ++ subdagsList ds)

/-- A TaskInstance row: the execution record of one
(dag_id, task_id, execution_date) triple. -/
structure TaskInstance where
  dag_id : String
  task_id : String
  execution_date : Int
  state : TIState
  try_number : Int
  max_tries : Int
  job_id : Option Int
  pool : String
deriving DecidableEq, Repr

/-- A BaseJob row (declared outside the source set; only its id and
state columns are touched by the modelled code). -/
structure Job where
  id : Int
  state : TIState
deriving DecidableEq, Repr

/-- A DagRun row. -/
structure DagRunRow where
  dag_id : String
  execution_date : Int
  run_id : String
  state : TIState
  start_date : Int
deriving DecidableEq, Repr

/-- A DagModel row; state is the attribute dynamically assigned by
DAG.set_dag_runs_state (it is not a declared column). -/
structure DagModelRow where
  dag_id : String
  state : Option TIState
deriving DecidableEq, Repr

/-- A DagStat row. -/
structure DagStatRow where
  dag_id : String
  state : TIState
  count : Nat
  dirty : Bool
deriving DecidableEq, Repr

/-- An XCom row. -/
structure XComRow where
  key : String
  value : String
  timestamp : Int
  execution_date : Int
  task_id : String
  dag_id : String
deriving DecidableEq, Repr

/-- A Pool row. -/
structure PoolRec where
  pool : String
  slots : Int
deriving DecidableEq, Repr

/-- The backing store, as seen through one session. -/
structure Session where
  task_instances : List TaskInstance
  jobs : List Job
  dag_runs : List DagRunRow
  dag_models : List DagModelRow
  dag_stats : List DagStatRow
deriving DecidableEq, Repr

/-- Pool.used_slots: the count of task instances bound to this pool
name in state RUNNING. -/
def Pool.used_slots (p : PoolRec) (tis : List TaskInstance) : Nat :=
  ((tis.filter (fun ti => ti.pool == p.pool)).filter
    (fun ti => ti.state == TIState.running)).length

/-- Pool.queued_slots: the count of task instances bound to this pool
name in state QUEUED. -/
def Pool.queued_slots (p : PoolRec) (tis : List TaskInstance) : Nat :=
  ((tis.filter (fun ti => ti.pool == p.pool)).filter
    (fun ti => ti.state == TIState.queued)).length

/-- Pool.open_slots: slots minus used minus queued, computed on demand. -/
def Pool.open_slots (p : PoolRec) (tis : List TaskInstance) : Int :=
  p.slots - (Pool.used_slots p tis : Int) - (Pool.queued_slots p tis : Int)

/-- The (dag_id, task_id, execution_date, key) scope filter used by
XCom.set when removing duplicate entries. -/
def xcomScopeMatch (key : String) (execution_date : Int) (task_id : String)
    (dag_id : String) (x : XComRow) : Bool :=
  x.key == key && x.execution_date == execution_date &&
    x.task_id == task_id && x.dag_id == dag_id

/-- XCom.set: delete every existing entry with the same
(dag, task, execution date, key), then insert the new value. The value
serialization (JSON or pickle) is opaque here; now is the write
timestamp (timezone.utcnow at insert time). -/
def XCom.set (rows : List XComRow) (key : String) (value : String)
    (execution_date : Int) (task_id : String) (dag_id : String)
    (now : Int) : List XComRow :=
  let remaining :=
    rows.filter (fun x => !(xcomScopeMatch key execution_date task_id dag_id x))
  remaining ++ [{ key := key, value := value, timestamp := now,
                  execution_date := execution_date, task_id := task_id,
                  dag_id := dag_id }]

/-- The ORDER BY execution_date DESC, timestamp DESC comparator of the
XCom read queries: a precedes b. -/
def xcomLe (a b : XComRow) : Bool :=
  b.execution_date < a.execution_date ||
    (a.execution_date == b.execution_date && b.timestamp ≤ a.timestamp)

/-- XCom.get_many: filter by any subset of key, task ids and dag ids,
by exact execution date or by dates up to the given one, order most
recent first and cap the result at limit (default 100). -/
def XCom.get_many (rows : List XComRow) (execution_date : Int)
    (key : Option String := none) (task_ids : Option (List String) := none)
    (dag_ids : Option (List String) := none)
    (include_prior_dates : Bool := false) (limit : Nat := 100) : List XComRow :=
  let keep := fun (x : XComRow) =>
    (match key with | some k => x.key == k | none => true) &&
    (match task_ids with | some ts => ts.contains x.task_id | none => true) &&
    (match dag_ids with | some ds => ds.contains x.dag_id | none => true) &&
    (if include_prior_dates then decide (x.execution_date ≤ execution_date)
     else x.execution_date == execution_date)
  ((rows.filter keep).mergeSort xcomLe).take limit

/-- The XCom comparator is transitive. -/
theorem xcomLe_trans (a b c : XComRow) (hab : xcomLe a b = true)
    (hbc : xcomLe b c = true) : xcomLe a c = true := by
  simp only [xcomLe, Bool.or_eq_true, Bool.and_eq_true, decide_eq_true_eq,
    beq_iff_eq] at hab hbc ⊢
  omega

/-- The XCom comparator is total. -/
theorem xcomLe_total (a b : XComRow) : (xcomLe a b || xcomLe b a) = true := by
  simp only [xcomLe, Bool.or_eq_true, Bool.and_eq_true, decide_eq_true_eq,
    beq_iff_eq]
  omega

/-- A demo pool of 5 slots. -/
def demoPool5 : PoolRec := { pool := "demo_pool", slots := 5 }

/-- The demo pool with slots reduced to 2. -/
def demoPool2 : PoolRec := { pool := "demo_pool", slots := 2 }

/-- Demo usage: three RUNNING and one QUEUED instance bound to
demo_pool, plus one RUNNING instance in another pool. -/
def demoPoolTis : List TaskInstance :=
  [ { dag_id := "d", task_id := "t1", execution_date := 0,
      state := TIState.running, try_number := 1, max_tries := 0,
      job_id := none, pool := "demo_pool" },
    { dag_id := "d", task_id := "t2", execution_date := 0,
      state := TIState.running, try_number := 1, max_tries := 0,
      job_id := none, pool := "demo_pool" },
    { dag_id := "d", task_id := "t3", execution_date := 0,
      state := TIState.running, try_number := 1, max_tries := 0,
      job_id := none, pool := "demo_pool" },
    { dag_id := "d", task_id := "t4", execution_date := 0,
      state := TIState.queued, try_number := 1, max_tries := 0,
      job_id := none, pool := "demo_pool" },
    { dag_id := "d", task_id := "t5", execution_date := 0,
      state := TIState.running, try_number := 1, max_tries := 0,
      job_id := none, pool := "other_pool" } ]

/-- C6: open_slots equals slots minus the count of RUNNING instances
bound to the pool name minus the count of QUEUED instances bound to the
pool name, and the result may be negative: with slots=5 and 3 RUNNING
plus 1 QUEUED bound instances open_slots is 1, and the same usage with
slots reduced to 2 gives -2. -/
theorem pool_open_slots_spec :
    (∀ (p : PoolRec) (tis : List TaskInstance),
      Pool.open_slots p tis =
        p.slots -
          ((tis.filter
            (fun ti => ti.state == TIState.running && ti.pool == p.pool)).length : Int) -
          ((tis.filter
            (fun ti => ti.state == TIState.queued && ti.pool == p.pool)).length : Int)) ∧
    Pool.open_slots demoPool5 demoPoolTis = 1 ∧
    Pool.open_slots demoPool2 demoPoolTis = -2 ∧
    Pool.open_slots demoPool2 demoPoolTis < 0 := by
  refine ⟨?_, by decide, by decide, by decide⟩
  intro p tis
  simp [Pool.open_slots, Pool.used_slots, Pool.queued_slots, List.filter_filter]

/-- C7: calling XCom.set twice with the same
(dag, task, execution_date, key) scope and two values leaves exactly
one stored entry for that scope, holding the second value. -/
theorem xcom_set_last_write_wins (rows : List XComRow) (k v1 v2 : String)
    (ed : Int) (tid did : String) (t1 t2 : Int) :
    (XCom.set (XCom.set rows k v1 ed tid did t1) k v2 ed tid did t2).filter
        (xcomScopeMatch k ed tid did) =
      [{ key := k, value := v2, timestamp := t2, execution_date := ed,
         task_id := tid, dag_id := did }] := by
  simp [XCom.set, List.filter_append, List.filter_filter, xcomScopeMatch]

/-- C10: XCom.get_many called without an explicit limit returns at most
100 entries (the default cap is 100), ordered by execution date
descending then timestamp descending. -/
theorem xcom_get_many_default_cap (rows : List XComRow) (ed : Int)
    (key : Option String) (task_ids dag_ids : Option (List String))
    (include_prior_dates : Bool) :
    (XCom.get_many rows ed key task_ids dag_ids include_prior_dates).length ≤ 100 ∧
    List.Pairwise (fun a b => xcomLe a b = true)
      (XCom.get_many rows ed key task_ids dag_ids include_prior_dates) ∧
    XCom.get_many rows ed key task_ids dag_ids include_prior_dates =
      XCom.get_many rows ed key task_ids dag_ids include_prior_dates 100 := by
  refine ⟨?_, ?_, rfl⟩
  · simp only [XCom.get_many]
    exact List.length_take_le _ _
  · simp only [XCom.get_many]
    exact (List.sorted_mergeSort xcomLe_trans xcomLe_total _).sublist
      (List.take_sublist _ _)

/-- Python truthiness of the nullable job_id column (ti.job_id is falsy
when NULL or 0). -/
def jobIdTruthy : Option Int → Bool
  | some j => j != 0
  | none => false

/-- Composite-key match for TaskInstance rows
(dag_id, task_id, execution_date). -/
def tiKeyMatch (a b : TaskInstance) : Bool :=
  a.dag_id == b.dag_id && a.task_id == b.task_id &&
    a.execution_date == b.execution_date

/-- session.merge for a TaskInstance: upsert by composite key. -/
def mergeTI (ts : List TaskInstance) (ti : TaskInstance) : List TaskInstance :=
  if ts.any (tiKeyMatch ti) then
    ts.map (fun x => if tiKeyMatch ti x then ti else x)
  else ts ++ [ti]

/-- The per-instance step of clear_task_instances: a RUNNING instance
with a truthy bound job id is marked SHUTDOWN and its job id collected;
a RUNNING instance without one is left untouched; any other instance
gets max_tries recomputed (try_number + task.retries - 1 when the task
is found in the supplied DAG, otherwise the maximum of the previous
max_tries and try_number - 1) and its state reset to NONE. Returns the
updated instance and the collected job ids. -/
def clearOneTI (dag : Option DAG) (ti : TaskInstance) :
    TaskInstance × List Int :=
  if ti.state = TIState.running then
    if jobIdTruthy ti.job_id then
      ({ ti with state := TIState.shutdown }, [ti.job_id.getD 0])
    else (ti, [])
  else
    let mt : Int :=
      match dag with
      | some d =>
        match d.get_task ti.task_id with
        | some task => ti.try_number + task.retries - 1
        | none => max ti.max_tries (ti.try_number - 1)
      | none => max ti.max_tries (ti.try_number - 1)
    ({ ti with state := TIState.none, max_tries := mt }, [])

/-- clear_task_instances: clears a set of task instances, making sure
the running ones get killed: collected job ids have their BaseJob rows
set to SHUTDOWN, and when activate_dag_runs is set the DagRun rows
matching the dag ids and execution dates of the set are reset to
RUNNING with start_date now. Returns the updated instances, the
collected job ids and the updated session. -/
def clear_task_instances (tis : List TaskInstance) (sess : Session)
    (now : Int) (activate_dag_runs : Bool := true)
    (dag : Option DAG := none) :
    List TaskInstance × List Int × Session :=
  let cleared := tis.map (clearOneTI dag)
  let tis' := cleared.map Prod.fst
  let job_ids := (cleared.map Prod.snd).flatten
  let jobs' :=
    if job_ids.isEmpty then sess.jobs
    else sess.jobs.map (fun j =>
      if job_ids.contains j.id then { j with state := TIState.shutdown } else j)
  let dag_runs' :=
    if activate_dag_runs && !tis.isEmpty then
      sess.dag_runs.map (fun dr =>
        if (tis.any (fun ti => ti.dag_id == dr.dag_id)) &&
           (tis.any (fun ti => ti.execution_date == dr.execution_date)) then
          { dr with state := TIState.running, start_date := now }
        else dr)
    else sess.dag_runs
  (tis', job_ids,
    { sess with task_instances := tis'.foldl mergeTI sess.task_instances,
                jobs := jobs', dag_runs := dag_runs' })

/-- The updated-instances component of clear_task_instances is the
per-instance step mapped over the input. -/
theorem clear_tis_fst (tis : List TaskInstance) (sess : Session) (now : Int)
    (act : Bool) (dag? : Option DAG) :
    (clear_task_instances tis sess now act dag?).1 =
      tis.map (fun t => (clearOneTI dag? t).1) := by
  simp [clear_task_instances, List.map_map, Function.comp]

/-- The collected job ids of clear_task_instances are the per-instance
collections flattened. -/
theorem clear_tis_jobids (tis : List TaskInstance) (sess : Session)
    (now : Int) (act : Bool) (dag? : Option DAG) :
    (clear_task_instances tis sess now act dag?).2.1 =
      (tis.map (fun t => (clearOneTI dag? t).2)).flatten := by
  simp only [clear_task_instances, List.map_map]
  rfl

/-- C1 (amended): in clear_task_instances, an instance whose state is
RUNNING with a truthy bound job id is set to SHUTDOWN and its job id is
collected for job shutdown; an instance whose state is RUNNING without
a truthy job id is left unchanged; every instance whose state is not
RUNNING is reset to NONE with max_tries recomputed as
try_number + task.retries - 1 when the owning task is found in the
supplied DAG and as max(previous max_tries, try_number - 1) otherwise. -/
theorem clear_task_instances_cases (tis : List TaskInstance)
    (sess : Session) (now : Int) (dag? : Option DAG) (i : Nat)
    (ti : TaskInstance) (hget : tis[i]? = some ti) :
    (ti.state = TIState.running → jobIdTruthy ti.job_id = true →
      (clear_task_instances tis sess now true dag?).1[i]? =
          some { ti with state := TIState.shutdown } ∧
        ti.job_id.getD 0 ∈ (clear_task_instances tis sess now true dag?).2.1) ∧
    (ti.state = TIState.running → jobIdTruthy ti.job_id = false →
      (clear_task_instances tis sess now true dag?).1[i]? = some ti) ∧
    (ti.state ≠ TIState.running →
      ∀ (d : DAG) (task : Task), dag? = some d →
      d.get_task ti.task_id = some task →
      (clear_task_instances tis sess now true dag?).1[i]? =
        some { ti with state := TIState.none,
                       max_tries := ti.try_number + task.retries - 1 }) ∧
    (ti.state ≠ TIState.running →
      (∀ d : DAG, dag? = some d → d.get_task ti.task_id = none) →
      (clear_task_instances tis sess now true dag?).1[i]? =
        some { ti with state := TIState.none,
                       max_tries := max ti.max_tries (ti.try_number - 1) }) := by
  have hfst : (clear_task_instances tis sess now true dag?).1[i]? =
      some (clearOneTI dag? ti).1 := by
    rw [clear_tis_fst, List.getElem?_map, hget]
    rfl
  have hmem : ti ∈ tis := by
    have := List.mem_iff_getElem?.mpr ⟨i, hget⟩
    exact this
  refine ⟨?_, ?_, ?_, ?_⟩
  · intro hrun hjob
    refine ⟨?_, ?_⟩
    · rw [hfst]; simp [clearOneTI, hrun, hjob]
    · rw [clear_tis_jobids]
      refine List.mem_flatten.mpr ⟨[ti.job_id.getD 0], ?_, by simp⟩
      refine List.mem_map.mpr ⟨ti, hmem, ?_⟩
      simp [clearOneTI, hrun, hjob]
  · intro hrun hjob
    rw [hfst]; simp [clearOneTI, hrun, hjob]
  · intro hnot d task hd htask
    subst hd
    rw [hfst]; simp [clearOneTI, hnot, htask]
  · intro hnot hnone
    rw [hfst]
    cases hd : dag? with
    | none => simp [clearOneTI, hnot, hd]
    | some d => simp [clearOneTI, hnot, hd, hnone d hd]

/-- An empty session. -/
def emptySession : Session :=
  { task_instances := [], jobs := [], dag_runs := [], dag_models := [],
    dag_stats := [] }

/-- A RUNNING task instance with no bound job id. -/
def tiRunNoJob : TaskInstance :=
  { dag_id := "d", task_id := "t", execution_date := 0,
    state := TIState.running, try_number := 1, max_tries := 0,
    job_id := none, pool := "" }

/-- C1 counterexample: a RUNNING instance without a bound job id falls
in the every-other-instance category of the claim (it is not RUNNING
with a bound job id), yet clear_task_instances leaves it RUNNING
instead of resetting its state to NONE. -/
theorem clear_task_instances_counterexample :
    ¬ (tiRunNoJob.state = TIState.running ∧
        jobIdTruthy tiRunNoJob.job_id = true) ∧
    (clear_task_instances [tiRunNoJob] emptySession 0 true none).1 =
      [tiRunNoJob] ∧
    tiRunNoJob.state ≠ TIState.none := by decide

/-- The identity timezone (UTC). -/
def utcTz : Timezone :=
  { toLocal := fun t => t, fromLocal := fun t => t,
    from_to := fun _ => rfl, to_from := fun _ => rfl }

/-- A DAG owning one task t2 with retries = 3. -/
def dagW : DAG :=
  DAG.mk "wd" ScheduleInterval.once utcTz
    [{ task_id := "t2", upstream_ids := [], downstream_ids := [],
       retries := 3 }] false []

/-- A RUNNING instance with job id 7. -/
def tiRunningJ : TaskInstance :=
  { dag_id := "wd", task_id := "t1", execution_date := 0,
    state := TIState.running, try_number := 1, max_tries := 0,
    job_id := some 7, pool := "" }

/-- A FAILED instance of task t2 with try_number 2. -/
def tiFailed2 : TaskInstance :=
  { dag_id := "wd", task_id := "t2", execution_date := 0,
    state := TIState.failed, try_number := 2, max_tries := 1,
    job_id := none, pool := "" }

/-- C1 witness: on one RUNNING instance with job id 7 and one FAILED
instance with try_number 2 whose task has retries 3, the RUNNING
instance becomes SHUTDOWN with 7 collected and the FAILED instance
becomes NONE with max_tries 4. -/
theorem clear_task_instances_witness :
    (clear_task_instances [tiRunningJ, tiFailed2] emptySession 0 true
        (some dagW)).1[0]? =
      some { tiRunningJ with state := TIState.shutdown } ∧
    (7 : Int) ∈ (clear_task_instances [tiRunningJ, tiFailed2] emptySession 0
        true (some dagW)).2.1 ∧
    (clear_task_instances [tiRunningJ, tiFailed2] emptySession 0 true
        (some dagW)).1[1]? =
      some { tiFailed2 with state := TIState.none, max_tries := 4 } := by
  have h0 := clear_task_instances_cases [tiRunningJ, tiFailed2] emptySession 0
    (some dagW) 0 tiRunningJ rfl
  have h1 := clear_task_instances_cases [tiRunningJ, tiFailed2] emptySession 0
    (some dagW) 1 tiFailed2 rfl
  refine ⟨(h0.1 rfl rfl).1, (h0.1 rfl rfl).2, ?_⟩
  exact h1.2.2.1 (by decide) dagW
    { task_id := "t2", upstream_ids := [], downstream_ids := [],
      retries := 3 } rfl rfl

/-- The direct relatives of a task: its upstream_list or
downstream_list, resolved against the owning DAG. -/
def directRelatives (dag : DAG) (upstream : Bool) (t : Task) : List Task :=
  (if upstream then t.upstream_ids else t.downstream_ids).filterMap
    (fun tid => dag.get_task tid)

/-- Modelled from the spec: BaseOperator.get_flat_relatives (declared
outside the source set) computes the transitive upstream or downstream
closure of a task, accumulating newly discovered relatives
depth-first. Fuel-bounded worklist formulation. -/
def flatRelativesAux (dag : DAG) (upstream : Bool) :
    Nat → List Task → List Task → List Task
  | 0, _, acc => acc
  | _ + 1, [], acc => acc
  | fuel + 1, t :: stack, acc =>
      let rel := directRelatives dag upstream t
      let new := rel.filter
        (fun x => !(acc.any (fun y => y.task_id == x.task_id)))
      flatRelativesAux dag upstream fuel (new ++ stack) (acc ++ new)

/-- Modelled from the spec: the flat (transitive) relatives of a task
within its DAG, excluding the task itself unless it lies on a cycle. -/
def get_flat_relatives (dag : DAG) (t : Task) (upstream : Bool) : List Task :=
  flatRelativesAux dag upstream
    (dag.tasks.length * dag.tasks.length + dag.tasks.length + 1) [t] []

/-- The Python dict comprehension keyed by task_id: keeps the first
occurrence of each id. -/
def distinctById (ts : List Task) : List Task :=
  ts.foldl (fun acc t =>
    if acc.any (fun x => x.task_id == t.task_id) then acc else acc ++ [t]) []

/-- DAG.sub_dag: deep-copy the DAG, keep the tasks whose id matches the
regex plus the requested upstream/downstream closures, prune every
surviving task's edge lists to surviving ids, and mark the copy partial
when fewer tasks survive than existed originally. -/
def sub_dag (dag : DAG) (task_regex : String → Bool)
    (include_downstream : Bool := false)
    (include_upstream : Bool := true) : DAG :=
  let regex_match := dag.tasks.filter (fun t => task_regex t.task_id)
  let also_include := regex_match.flatMap (fun t =>
    (if include_downstream then get_flat_relatives dag t false else []) ++
    (if include_upstream then get_flat_relatives dag t true else []))
  let selected := distinctById (regex_match ++ also_include)
  let ids := selected.map Task.task_id
  let pruned := selected.map (fun t =>
    { t with
        upstream_ids := t.upstream_ids.filter (fun tid => ids.contains tid),
        downstream_ids :=
          t.downstream_ids.filter (fun tid => ids.contains tid) })
  DAG.mk dag.dag_id dag.schedule dag.tz pruned
    (if pruned.length < dag.tasks.length then true else dag.partial_flag)
    dag.direct_subdags

/-- Task A of the chain A to B to C. -/
def taskA : Task :=
  { task_id := "A", upstream_ids := [], downstream_ids := ["B"],
    retries := 0 }

/-- Task B of the chain A to B to C. -/
def taskB : Task :=
  { task_id := "B", upstream_ids := ["A"], downstream_ids := ["C"],
    retries := 0 }

/-- Task C of the chain A to B to C. -/
def taskC : Task :=
  { task_id := "C", upstream_ids := ["B"], downstream_ids := [],
    retries := 0 }

/-- The three-task chain DAG A to B to C. -/
def chainDagABC : DAG :=
  DAG.mk "abc" ScheduleInterval.once utcTz [taskA, taskB, taskC] false []

/-- C8: sub_dag on the chain A to B to C with a pattern selecting
exactly B, include_downstream and not include_upstream, returns a DAG
whose task set is exactly B and C, in which the upstream reference of B
to A has been pruned, and which is marked partial. -/
theorem sub_dag_select_B_downstream :
    (sub_dag chainDagABC (fun s => s == "B") true false).tasks.map
        Task.task_id = ["B", "C"] ∧
    (sub_dag chainDagABC (fun s => s == "B") true false).get_task "B" =
      some { task_id := "B", upstream_ids := [], downstream_ids := ["C"],
             retries := 0 } ∧
    (sub_dag chainDagABC (fun s => s == "B") true false).partial_flag =
      true := by decide

/-- Modelled from the spec: the DagRun state domain State.dag_states
(the states a DagRun can take). -/
def dagStates : List TIState :=
  [TIState.running, TIState.success, TIState.failed]

/-- session.merge for a DagStat row: upsert by (dag_id, state). -/
def dagStatMerge (stats : List DagStatRow) (row : DagStatRow) :
    List DagStatRow :=
  if stats.any (fun s => s.dag_id == row.dag_id && s.state == row.state) then
    stats.map (fun s =>
      if s.dag_id == row.dag_id && s.state == row.state then row else s)
  else stats ++ [row]

/-- DagStat.update restricted to the given dag ids with dirty_only
semantics: select the dirty stat rows for those ids, and for every
(selected id, DagRun state) pair merge a fresh row whose count is the
number of DagRun rows in that state, clearing the dirty flag. An empty
selection leaves the table unchanged. -/
def DagStat.update (sess : Session) (dag_ids : List String) : Session :=
  let qry := sess.dag_stats.filter (fun st =>
    (dag_ids.isEmpty || dag_ids.contains st.dag_id) && st.dirty)
  let ids := (qry.map DagStatRow.dag_id).dedup
  if ids.isEmpty then sess
  else
    let rows := ids.flatMap (fun did => dagStates.map (fun st =>
      ({ dag_id := did, state := st,
         count := (sess.dag_runs.filter
           (fun dr => dr.dag_id == did && dr.state == st)).length,
         dirty := false } : DagStatRow)))
    { sess with dag_stats := rows.foldl dagStatMerge sess.dag_stats }

/-- DAG.set_dag_runs_state: sets the state attribute of every DagModel
row with this dag id (the code queries DagModel, not DagRun), then
triggers DagStat.update for the touched ids. -/
def set_dag_runs_state (dag : DAG) (sess : Session) (state : TIState) :
    Session :=
  let dirty_ids := (sess.dag_models.filter
    (fun dm => dm.dag_id == dag.dag_id)).map DagModelRow.dag_id
  let dm' := sess.dag_models.map (fun dm =>
    if dm.dag_id == dag.dag_id then { dm with state := some state } else dm)
  DagStat.update { sess with dag_models := dm' } dirty_ids

/-- The TaskInstance selection of DAG.clear: instances belonging to
this DAG (and, when include_subdags, to any nested sub-DAG), restricted
by the optional date range and the only_failed / only_running state
filters. -/
def selectClearTis (dag : DAG) (sess : Session)
    (start_date end_date : Option Int)
    (only_failed only_running include_subdags : Bool) :
    List TaskInstance :=
  let base :=
    if include_subdags then
      sess.task_instances.filter (fun ti =>
        (dag.subdags ++ [dag]).any (fun d =>
          ti.dag_id == d.dag_id && d.task_ids.contains ti.task_id))
    else
      sess.task_instances.filter (fun ti =>
        ti.dag_id == dag.dag_id && dag.task_ids.contains ti.task_id)
  let base := match start_date with
    | some sd => base.filter (fun ti => sd ≤ ti.execution_date)
    | none => base
  let base := match end_date with
    | some ed => base.filter (fun ti => ti.execution_date ≤ ed)
    | none => base
  let base := if only_failed then
      base.filter (fun ti => ti.state == TIState.failed)
    else base
  if only_running then
    base.filter (fun ti => ti.state == TIState.running)
  else base

/-- The result of DAG.clear: the undisturbed selection in dry-run mode,
or the number of cleared instances. -/
inductive ClearOutcome where
  | selection (tis : List TaskInstance)
  | cleared (count : Nat)
deriving DecidableEq, Repr

/-- DAG.clear: select the task instances for the date range and state
filters; in dry-run mode return them without touching the session;
otherwise (unless the confirmation prompt is declined) run
clear_task_instances over them and, when reset_dag_runs, reset the
owning dag runs through set_dag_runs_state; return the count cleared. -/
def DAG.clear (dag : DAG) (sess : Session) (now : Int)
    (start_date end_date : Option Int)
    (only_failed only_running : Bool)
    (confirm_prompt prompt_answer : Bool)
    (include_subdags reset_dag_runs dry_run : Bool) :
    ClearOutcome × Session :=
  let tis := selectClearTis dag sess start_date end_date only_failed
    only_running include_subdags
  if dry_run then (ClearOutcome.selection tis, sess)
  else
    let count := tis.length
    if count = 0 then (ClearOutcome.cleared 0, sess)
    else
      let do_it := !confirm_prompt || prompt_answer
      if do_it then
        let r := clear_task_instances tis sess now true (some dag)
        let sess' := r.2.2
        let sess'' := if reset_dag_runs then
            set_dag_runs_state dag sess' TIState.running
          else sess'
        (ClearOutcome.cleared count, sess'')
      else (ClearOutcome.cleared 0, sess)

/-- C9: DAG.clear with dry_run returns the selection picked out by the
date-range and state filters and leaves the session (task instances,
dag runs, jobs, stats) completely unchanged, for every DAG and every
argument combination. -/
theorem dag_clear_dry_run_frame (dag : DAG) (sess : Session) (now : Int)
    (start_date end_date : Option Int)
    (only_failed only_running confirm_prompt prompt_answer
      include_subdags reset_dag_runs : Bool) :
    DAG.clear dag sess now start_date end_date only_failed only_running
        confirm_prompt prompt_answer include_subdags reset_dag_runs true =
      (ClearOutcome.selection (selectClearTis dag sess start_date end_date
        only_failed only_running include_subdags), sess) := by
  simp [DAG.clear]

/-- The outcome of importing one DAG definition file: the dag ids it
exports, or the import exception message. -/
inductive LoadResult where
  | ok (dag_ids : List String)
  | error (msg : String)
deriving DecidableEq, Repr

/-- One candidate DAG definition file as seen on disk: its path, its
modification time, whether the cheap content pre-filter finds the
marker tokens, and what importing it produces. -/
structure SourceFile where
  path : String
  mtime : Int
  has_markers : Bool
  load : LoadResult
deriving DecidableEq, Repr

/-- Association-list lookup by string key. -/
def assocGet {α : Type} (m : List (String × α)) (k : String) : Option α :=
  (m.find? (fun kv => kv.1 == k)).map Prod.snd

/-- Association-list upsert by string key. -/
def assocSet {α : Type} (m : List (String × α)) (k : String) (v : α) :
    List (String × α) :=
  if m.any (fun kv => kv.1 == k) then
    m.map (fun kv => if kv.1 == k then (k, v) else kv)
  else m ++ [(k, v)]

/-- Insert a dag id into the bag dictionary (dict assignment keyed by
dag_id: position of the first insertion is kept). -/
def insertDagId (dags : List String) (dag_id : String) : List String :=
  if dags.contains dag_id then dags else dags ++ [dag_id]

/-- The DagBag state: the registered dag ids, the per-path modification
time recorded at the last read, and the per-path import errors. The
import_errors map is only ever initialized empty in the constructor. -/
structure DagBag where
  dags : List String
  file_last_changed : List (String × Int)
  import_errors : List (String × String)
deriving DecidableEq, Repr

/-- A freshly constructed DagBag (before any collect_dags pass). -/
def emptyDagBag : DagBag :=
  { dags := [], file_last_changed := [], import_errors := [] }

/-- DagBag.process_file: skip missing files; skip unchanged files when
only_if_updated; in safe mode skip files without the marker tokens
(recording the mtime); otherwise import the file, recording an import
error keyed by the path on failure and registering every exported DAG
on success; always record the mtime of a processed file. Returns the
updated bag and the dag ids found. -/
def process_file (fs : List SourceFile) (bag : DagBag) (filepath : String)
    (only_if_updated : Bool := true) (safe_mode : Bool := true) :
    DagBag × List String :=
  match fs.find? (fun f => f.path == filepath) with
  | none => (bag, [])
  | some file =>
    if only_if_updated &&
        (assocGet bag.file_last_changed filepath == some file.mtime) then
      (bag, [])
    else if safe_mode && !file.has_markers then
      ({ bag with
          file_last_changed :=
            assocSet bag.file_last_changed filepath file.mtime }, [])
    else
      match file.load with
      | .error e =>
        ({ bag with
            import_errors := assocSet bag.import_errors filepath e,
            file_last_changed :=
              assocSet bag.file_last_changed filepath file.mtime }, [])
      | .ok dag_ids =>
        let bag' := dag_ids.foldl
          (fun b did => { b with dags := insertDagId b.dags did }) bag
        ({ bag' with
            file_last_changed :=
              assocSet bag'.file_last_changed filepath file.mtime },
         dag_ids)

/-- DagBag.collect_dags: walk the candidate files in order and process
each one (the ignore-pattern and extension screening is outside this
model: every entry of the list is a candidate). -/
def collect_dags (fs : List SourceFile) (bag : DagBag)
    (only_if_updated : Bool := true) : DagBag :=
  fs.foldl (fun b f => (process_file fs b f.path only_if_updated true).1) bag

/-- The healthy DAG definition file. -/
def goodFile : SourceFile :=
  { path := "good.py", mtime := 1, has_markers := true,
    load := LoadResult.ok ["good_dag"] }

/-- The DAG definition file that raises on import. -/
def badFile : SourceFile :=
  { path := "bad.py", mtime := 1, has_markers := true,
    load := LoadResult.error "boom" }

/-- The same failing file after being fixed: new mtime, imports fine. -/
def badFileFixed : SourceFile :=
  { path := "bad.py", mtime := 2, has_markers := true,
    load := LoadResult.ok ["bad_dag"] }

/-- The folder before the fix. -/
def folderBefore : List SourceFile := [goodFile, badFile]

/-- The folder after the fix. -/
def folderAfter : List SourceFile := [goodFile, badFileFixed]

/-- The bag after the first collect_dags pass. -/
def bagAfterFirst : DagBag := collect_dags folderBefore emptyDagBag

/-- The bag after the second collect_dags pass over the fixed folder. -/
def bagAfterSecond : DagBag := collect_dags folderAfter bagAfterFirst

/-- C5 counterexample: after the failing file is fixed and collect_dags
runs again, its path is still present in the import-error map (the
claim says the second pass removes it; process_file and collect_dags
never delete recorded import errors). -/
theorem collect_dags_counterexample :
    assocGet bagAfterSecond.import_errors "bad.py" = some "boom" := by decide

/-- C5 (amended): the first collect_dags pass registers the valid DAG
and records exactly one import error keyed by the failing path; the
second pass after the fix registers the fixed DAG of that file, but the
path remains in the import-error map, which is only reset when a new
DagBag is constructed. -/
theorem collect_dags_import_error_lifecycle :
    bagAfterFirst.dags = ["good_dag"] ∧
    bagAfterFirst.import_errors = [("bad.py", "boom")] ∧
    bagAfterSecond.dags = ["good_dag", "bad_dag"] ∧
    bagAfterSecond.import_errors = [("bad.py", "boom")] := by decide

/-- Modelled from the spec: croniter get_next on a naive local instant,
for a periodic firing set: the least local instant strictly after l
congruent to phase modulo period. -/
def cronNext (period phase l : Int) : Int :=
  l + ((phase - l - 1) % period + 1)

/-- Modelled from the spec: croniter get_prev on a naive local instant:
the greatest local instant strictly before l congruent to phase modulo
period. -/
def cronPrev (period phase l : Int) : Int :=
  l - ((l - phase - 1) % period + 1)

/-- DAG.following_schedule: for a cron interval, convert to the local
timezone, take the next cron firing and convert back; for a timedelta
interval, add the duration; for @once (interval None), no following
schedule. -/
def DAG.following_schedule (dag : DAG) (dttm : Int) : Option Int :=
  match dag.schedule with
  | .cron period phase =>
    some (dag.tz.fromLocal (cronNext period phase (dag.tz.toLocal dttm)))
  | .delta d => some (dttm + d)
  | .once => none

/-- DAG.previous_schedule: for a cron interval, convert to the local
timezone, take the previous cron firing and convert back; for a
timedelta interval, subtract the duration; for @once, nothing. -/
def DAG.previous_schedule (dag : DAG) (dttm : Int) : Option Int :=
  match dag.schedule with
  | .cron period phase =>
    some (dag.tz.fromLocal (cronPrev period phase (dag.tz.toLocal dttm)))
  | .delta d => some (dttm - d)
  | .once => none

/-- The cron period of a DAG is positive (trivially satisfied by the
other interval kinds). -/
def cronPeriodPos (dag : DAG) : Prop :=
  match dag.schedule with
  | .cron period _ => 0 < period
  | _ => True

/-- The instant t is itself a valid schedule firing of the DAG: any
instant for a fixed duration, a local instant in the firing set for a
cron interval; @once is excluded (its interval is None). -/
def validFiring (dag : DAG) (t : Int) : Prop :=
  match dag.schedule with
  | .cron period phase => (dag.tz.toLocal t) % period = phase % period
  | .delta _ => True
  | .once => False

/-- Stepping back one cron firing and forward again returns to the
start when the starting local instant is itself a firing. -/
theorem cronNext_cronPrev (period phase l : Int) (hp : 0 < period)
    (hl : l % period = phase % period) :
    cronNext period phase (cronPrev period phase l) = l := by
  have hne : period ≠ 0 := ne_of_gt hp
  have hdvd : period ∣ (phase - l) := by
    refine Int.dvd_of_emod_eq_zero ?_
    rw [Int.sub_emod, hl, sub_self, Int.zero_emod]
  obtain ⟨k, hk⟩ := hdvd
  have hX0 : 0 ≤ (l - phase - 1) % period := Int.emod_nonneg _ hne
  have hXlt : (l - phase - 1) % period < period := Int.emod_lt_of_pos _ hp
  unfold cronNext cronPrev
  have harg : phase - (l - ((l - phase - 1) % period + 1)) - 1 =
      (l - phase - 1) % period + period * k := by omega
  rw [harg, Int.add_mul_emod_self_left, Int.emod_eq_of_lt hX0 hXlt]
  ring

/-- C4: for every DAG and every instant t that is itself a valid
schedule firing, following_schedule (previous_schedule t) = t, both for
fixed-duration and for cron intervals (the cron firings being computed
on DAG-local naive time). -/
theorem following_previous_roundtrip (dag : DAG) (t : Int)
    (hp : cronPeriodPos dag) (hf : validFiring dag t) :
    (dag.previous_schedule t).bind dag.following_schedule = some t := by
  unfold DAG.previous_schedule DAG.following_schedule
  unfold cronPeriodPos at hp
  unfold validFiring at hf
  cases hs : dag.schedule with
  | once => rw [hs] at hf; exact absurd hf (by simp)
  | delta d => simp [hs]
  | cron period phase =>
    rw [hs] at hp hf
    have hp' : 0 < period := hp
    have hf' : dag.tz.toLocal t % period = phase % period := hf
    show (some (dag.tz.fromLocal (cronPrev period phase
        (dag.tz.toLocal t)))).bind (fun a =>
          some (dag.tz.fromLocal (cronNext period phase
            (dag.tz.toLocal a)))) = some t
    rw [Option.some_bind, Option.some.injEq, dag.tz.to_from,
      cronNext_cronPrev period phase _ hp' hf', dag.tz.from_to]

/-- A timezone sixty minutes east of UTC. -/
def tzShift60 : Timezone :=
  { toLocal := fun t => t + 60, fromLocal := fun t => t - 60,
    from_to := fun t => by show t + 60 - 60 = t; omega,
    to_from := fun l => by show l - 60 + 60 = l; omega }

/-- A DAG on a daily cron firing at local minute 150 (02:30). -/
def cronDag : DAG :=
  DAG.mk "cron_dag" (ScheduleInterval.cron 1440 150) tzShift60 [] false []

/-- A DAG on a fixed half-hour duration interval. -/
def deltaDag : DAG :=
  DAG.mk "delta_dag" (ScheduleInterval.delta 30) tzShift60 [] false []

/-- C4 witness: the round trip holds at the concrete firing instant 90
of the daily local-02:30 cron DAG in a +60 timezone, and at instant 7
of the fixed-duration DAG. -/
theorem following_previous_roundtrip_witness :
    (validFiring cronDag 90 ∧
      (cronDag.previous_schedule 90).bind cronDag.following_schedule =
        some 90) ∧
    (validFiring deltaDag 7 ∧
      (deltaDag.previous_schedule 7).bind deltaDag.following_schedule =
        some 7) := by
  have hc : validFiring cronDag 90 := by
    show ((90 : Int) + 60) % 1440 = (150 : Int) % 1440; decide
  have hd : validFiring deltaDag 7 := by
    show True; trivial
  refine ⟨⟨hc, ?_⟩, ⟨hd, ?_⟩⟩
  · exact following_previous_roundtrip cronDag 90
      (by show (0 : Int) < 1440; decide) hc
  · exact following_previous_roundtrip deltaDag 7 (by show True; trivial) hd

/-- Membership of a task id in a working set of tasks (the Python
expression edge in graph_unsorted: task objects are compared within a
DAG, where ids are unique, so identity comparison coincides with id
comparison). -/
def tidMem (uid : String) (ts : List Task) : Bool :=
  ts.any (fun t => t.task_id == uid)

/-- The inner for/else of topological_sort: does this node still have
an upstream task in the unsorted working set? -/
def hasUnresolvedUpstream (node : Task) (unsorted : List Task) : Bool :=
  node.upstream_ids.any (fun uid => tidMem uid unsorted)

/-- One full pass of topological_sort over a snapshot of the unsorted
working set: nodes with no unresolved upstream are removed from the
working set and appended to the sorted output, setting the
progress flag (acyclic in the source). -/
def topoPass : List Task → List Task → List Task → Bool →
    List Task × List Task × Bool
  | [], unsorted, sorted_acc, acyclic => (unsorted, sorted_acc, acyclic)
  | node :: rest, unsorted, sorted_acc, acyclic =>
    if hasUnresolvedUpstream node unsorted then
      topoPass rest unsorted sorted_acc acyclic
    else
      topoPass rest (unsorted.eraseP (fun t => t.task_id == node.task_id))
        (sorted_acc ++ [node]) true

/-- A member of the working set is found by tidMem. -/
theorem tidMem_of_mem {x : Task} {u : List Task} (h : x ∈ u) :
    tidMem x.task_id u = true :=
  List.any_eq_true.mpr ⟨x, h, by simp⟩

/-- topoPass never grows the working set. -/
theorem topoPass_fst_length_le (s : List Task) : ∀ (u sor : List Task)
    (ac : Bool), (topoPass s u sor ac).1.length ≤ u.length := by
  induction s with
  | nil => intro u sor ac; exact le_refl _
  | cons node rest ih =>
    intro u sor ac
    by_cases h : hasUnresolvedUpstream node u = true
    · simpa [topoPass, h] using ih u sor ac
    · simp only [topoPass, h, if_false, Bool.false_eq_true]
      exact le_trans
        (ih (u.eraseP (fun t => t.task_id == node.task_id)) (sor ++ [node]) true)
        (List.eraseP_sublist u).length_le

/-- Erasing a present task id strictly shrinks the working set. -/
theorem length_eraseP_lt {u : List Task} {node : Task}
    (h : tidMem node.task_id u = true) :
    (u.eraseP (fun t => t.task_id == node.task_id)).length < u.length := by
  obtain ⟨x, hx, hpx⟩ := List.any_eq_true.mp h
  obtain ⟨c, l₁, l₂, _, _, hu, he⟩ :=
    @List.exists_of_eraseP Task (fun t => t.task_id == node.task_id) u x hx hpx
  rw [he, hu]
  simp

/-- A pass that started with a cleared flag and reports progress
removed at least one task from the working set. -/
theorem topoPass_progress (s : List Task) : ∀ (u sor : List Task),
    (∀ x ∈ s, tidMem x.task_id u = true) →
    (topoPass s u sor false).2.2 = true →
    (topoPass s u sor false).1.length < u.length := by
  induction s with
  | nil =>
    intro u sor _ hflag
    exact absurd hflag (by simp [topoPass])
  | cons node rest ih =>
    intro u sor hall hflag
    by_cases h : hasUnresolvedUpstream node u = true
    · rw [topoPass, if_pos h] at hflag ⊢
      exact ih u sor (fun x hx => hall x (List.mem_cons_of_mem _ hx)) hflag
    · rw [topoPass, if_neg h]
      calc (topoPass rest (u.eraseP (fun t => t.task_id == node.task_id))
              (sor ++ [node]) true).1.length
        ≤ (u.eraseP (fun t => t.task_id == node.task_id)).length :=
          topoPass_fst_length_le _ _ _ _
        _ < u.length := length_eraseP_lt (hall node (List.mem_cons_self _ _))

/-- The outer while loop of topological_sort: run passes until the
working set is empty, failing with a cycle error carrying the dag id on
the first pass that resolves zero tasks while tasks remain. -/
def topoLoop (dag_id : String) (unsorted sorted_acc : List Task) :
    Except String (List Task) :=
  if unsorted.isEmpty then .ok sorted_acc
  else
    let r := topoPass unsorted unsorted sorted_acc false
    if hr : r.2.2 = true then topoLoop dag_id r.1 r.2.1
    else .error ("A cyclic dependency occurred in dag: " ++ dag_id)
termination_by unsorted.length
decreasing_by
  exact topoPass_progress unsorted unsorted sorted_acc
    (fun x hx => tidMem_of_mem hx) hr

/-- DAG.topological_sort: repeated extraction of tasks with no
unresolved upstream dependency remaining in the working set (the
zero-task special case returns the empty tuple, which coincides with
the loop base case). -/
def topological_sort (dag : DAG) : Except String (List Task) :=
  topoLoop dag.dag_id dag.tasks []

/-- The task ids of a working set are pairwise distinct (the DAG
invariant: task_dict is keyed by task_id). -/
def NodupIds (u : List Task) : Prop :=
  (u.map Task.task_id).Nodup

/-- The upstream edge relation of a task collection: a is upstream of b
and both belong to the collection. -/
def edgeIn (l : List Task) (a b : Task) : Prop :=
  a ∈ l ∧ b ∈ l ∧ a.task_id ∈ b.upstream_ids

/-- The task collection contains a cycle: some task reaches itself
through a nonempty chain of upstream edges. -/
def HasCycle (l : List Task) : Prop :=
  ∃ t, Relation.TransGen (edgeIn l) t t

/-- No already-sorted task has an upstream id still present in the
unsorted working set. -/
def NoUp (sor u : List Task) : Prop :=
  ∀ y ∈ sor, ∀ uid ∈ y.upstream_ids, tidMem uid u = false

/-- Every task of the output appears after all of its upstream tasks. -/
def TopoOrdered (out : List Task) : Prop :=
  ∀ (i j : Nat) (x y : Task), out[i]? = some x → out[j]? = some y →
    x.task_id ∈ y.upstream_ids → i < j

/-- tidMem is antitone in the working set along inclusion. -/
theorem tidMem_false_mono {u' u : List Task} (hsub : ∀ x ∈ u', x ∈ u)
    {uid : String} (h : tidMem uid u = false) : tidMem uid u' = false := by
  simp only [tidMem, List.any_eq_false] at h ⊢
  exact fun x hx => h x (hsub x hx)

/-- Erasing a present task by its id under distinct ids removes exactly
that occurrence: the working set splits around the unique occurrence. -/
theorem eraseP_decomp : ∀ (u : List Task) (node : Task), node ∈ u →
    NodupIds u →
    ∃ u₁ u₂, u = u₁ ++ node :: u₂ ∧
      u.eraseP (fun t => t.task_id == node.task_id) = u₁ ++ u₂ := by
  intro u
  induction u with
  | nil => intro node hmem _; cases hmem
  | cons h t ih =>
    intro node hmem hnd
    simp only [NodupIds, List.map_cons, List.nodup_cons] at hnd
    by_cases hp : (h.task_id == node.task_id) = true
    · have hhn : h = node := by
        rcases List.mem_cons.mp hmem with e | hmem'
        · exact e.symm
        · exfalso
          have h1 : node.task_id ∈ t.map Task.task_id :=
            List.mem_map_of_mem _ hmem'
          have heq : h.task_id = node.task_id := by simpa using hp
          exact hnd.1 (heq ▸ h1)
      subst hhn
      exact ⟨[], t, rfl, List.eraseP_cons_of_pos hp⟩
    · have hmem' : node ∈ t := by
        rcases List.mem_cons.mp hmem with e | hmem'
        · exact absurd (by rw [e]; simp) hp
        · exact hmem'
      obtain ⟨u₁, u₂, he1, he2⟩ := ih node hmem' hnd.2
      refine ⟨h :: u₁, u₂, by simp [he1], ?_⟩
      rw [@List.eraseP_cons_of_neg Task h t
        (fun x => x.task_id == node.task_id) hp, he2]
      rfl

/-- Looking an index up in a list extended by one element on the
right: either a valid index of the prefix or exactly the new slot. -/
theorem getElem?_append_singleton {sor : List Task} {node : Task}
    {k : Nat} {z : Task} (hk : (sor ++ [node])[k]? = some z) :
    (k < sor.length ∧ sor[k]? = some z) ∨ (k = sor.length ∧ z = node) := by
  rw [List.getElem?_append] at hk
  by_cases hklen : k < sor.length
  · rw [if_pos hklen] at hk
    exact Or.inl ⟨hklen, hk⟩
  · rw [if_neg hklen] at hk
    match hm : k - sor.length with
    | 0 =>
      rw [hm, List.getElem?_cons_zero] at hk
      have : z = node := by simpa using hk.symm
      exact Or.inr ⟨by omega, this⟩
    | m + 1 =>
      rw [hm] at hk
      simp at hk

/-- Appending a task with no unresolved upstream (all remaining
upstream ids absent from the working set containing it) preserves the
topological ordering of the sorted prefix. -/
theorem topoOrdered_append (sor : List Task) (node : Task) (u : List Task)
    (hord : TopoOrdered sor) (hnoup : NoUp sor u) (hmem : node ∈ u)
    (hres : ∀ uid ∈ node.upstream_ids, tidMem uid u = false) :
    TopoOrdered (sor ++ [node]) := by
  intro i j x y hi hj hup
  rcases getElem?_append_singleton hi with ⟨hilen, hi'⟩ | ⟨hieq, hix⟩
  · rcases getElem?_append_singleton hj with ⟨hjlen, hj'⟩ | ⟨hjeq, hjy⟩
    · exact hord i j x y hi' hj' hup
    · omega
  · rcases getElem?_append_singleton hj with ⟨hjlen, hj'⟩ | ⟨hjeq, hjy⟩
    · exfalso
      have hy : y ∈ sor := List.mem_iff_getElem?.mpr ⟨j, hj'⟩
      have hup' : node.task_id ∈ y.upstream_ids := by
        rw [← hix]; exact hup
      have hfalse : tidMem node.task_id u = false := hnoup y hy _ hup'
      rw [tidMem_of_mem hmem] at hfalse
      cases hfalse
    · exfalso
      have hup' : node.task_id ∈ node.upstream_ids := by
        rw [hix, hjy] at hup; exact hup
      have hfalse : tidMem node.task_id u = false := hres _ hup'
      rw [tidMem_of_mem hmem] at hfalse
      cases hfalse

/-- A pass entered with the progress flag already set keeps it set. -/
theorem topoPass_flag_true (s : List Task) : ∀ (u sor : List Task),
    (topoPass s u sor true).2.2 = true := by
  induction s with
  | nil => intro u sor; rfl
  | cons node rest ih =>
    intro u sor
    by_cases h : hasUnresolvedUpstream node u = true
    · rw [topoPass, if_pos h]; exact ih u sor
    · rw [topoPass, if_neg h]; exact ih _ _

/-- A pass that reports no progress changed nothing: every node of the
snapshot still had an unresolved upstream in the working set. -/
theorem topoPass_stuck (s : List Task) : ∀ (u sor : List Task),
    (topoPass s u sor false).2.2 = false →
    (topoPass s u sor false).1 = u ∧ (topoPass s u sor false).2.1 = sor ∧
    ∀ x ∈ s, hasUnresolvedUpstream x u = true := by
  induction s with
  | nil => intro u sor _; exact ⟨rfl, rfl, by simp⟩
  | cons node rest ih =>
    intro u sor hflag
    by_cases h : hasUnresolvedUpstream node u = true
    · have hflag' : (topoPass rest u sor false).2.2 = false := by
        rw [topoPass, if_pos h] at hflag; exact hflag
      obtain ⟨h1, h2, h3⟩ := ih u sor hflag'
      refine ⟨by rw [topoPass, if_pos h]; exact h1,
        by rw [topoPass, if_pos h]; exact h2, ?_⟩
      intro x hx
      rcases List.mem_cons.mp hx with e | hx'
      · rw [e]; exact h
      · exact h3 x hx'
    · exfalso
      rw [topoPass, if_neg h, topoPass_flag_true] at hflag
      cases hflag

/-- The invariants of one pass: the working set shrinks to a sublist,
the sorted output together with the working set stays a permutation of
what it was, no sorted task keeps an upstream id in the working set,
and the sorted output stays topologically ordered. -/
theorem topoPass_inv (s : List Task) : ∀ (u sor : List Task) (ac : Bool),
    s.Nodup → (∀ x ∈ s, x ∈ u) → NodupIds u → NoUp sor u →
    TopoOrdered sor →
    ((topoPass s u sor ac).1.Sublist u ∧
      ((topoPass s u sor ac).2.1 ++ (topoPass s u sor ac).1).Perm (sor ++ u) ∧
      NoUp (topoPass s u sor ac).2.1 (topoPass s u sor ac).1 ∧
      TopoOrdered (topoPass s u sor ac).2.1) := by
  induction s with
  | nil =>
    intro u sor ac _ _ _ hnoup hord
    exact ⟨List.Sublist.refl u, List.Perm.refl _, hnoup, hord⟩
  | cons node rest ih =>
    intro u sor ac hsnd hsmem hnd hnoup hord
    have hnodemem : node ∈ u := hsmem node (List.mem_cons_self _ _)
    by_cases h : hasUnresolvedUpstream node u = true
    · rw [topoPass, if_pos h]
      exact ih u sor ac (List.Nodup.of_cons hsnd)
        (fun x hx => hsmem x (List.mem_cons_of_mem _ hx)) hnd hnoup hord
    · obtain ⟨u₁, u₂, hu, he⟩ := eraseP_decomp u node hnodemem hnd
      have hsubmem : ∀ x ∈ u.eraseP (fun t => t.task_id == node.task_id),
          x ∈ u := (List.eraseP_sublist u).subset
      have hnd' : NodupIds (u.eraseP (fun t => t.task_id == node.task_id)) :=
        List.Nodup.sublist ((List.eraseP_sublist u).map _) hnd
      have hresF : ∀ uid ∈ node.upstream_ids, tidMem uid u = false := by
        have hres0 : hasUnresolvedUpstream node u = false :=
          Bool.eq_false_iff.mpr h
        simp only [hasUnresolvedUpstream, List.any_eq_false] at hres0
        intro uid huid
        exact Bool.eq_false_iff.mpr (hres0 uid huid)
      have hrestmem : ∀ x ∈ rest,
          x ∈ u.eraseP (fun t => t.task_id == node.task_id) := by
        intro x hx
        have hxu : x ∈ u := hsmem x (List.mem_cons_of_mem _ hx)
        have hxne : x ≠ node := by
          intro e; rw [e] at hx
          exact (List.nodup_cons.mp hsnd).1 hx
        rw [hu] at hxu
        rw [he]
        rcases List.mem_append.mp hxu with h1 | h2
        · exact List.mem_append.mpr (Or.inl h1)
        · rcases List.mem_cons.mp h2 with e | h3
          · exact absurd e hxne
          · exact List.mem_append.mpr (Or.inr h3)
      have hnoup' : NoUp (sor ++ [node])
          (u.eraseP (fun t => t.task_id == node.task_id)) := by
        intro y hy uid huid
        rcases List.mem_append.mp hy with hy1 | hy2
        · exact tidMem_false_mono hsubmem (hnoup y hy1 uid huid)
        · have hyn : y = node := by simpa using hy2
          rw [hyn] at huid
          exact tidMem_false_mono hsubmem (hresF uid huid)
      have hord' : TopoOrdered (sor ++ [node]) :=
        topoOrdered_append sor node u hord hnoup hnodemem hresF
      have IH := ih (u.eraseP (fun t => t.task_id == node.task_id))
        (sor ++ [node]) true (List.Nodup.of_cons hsnd) hrestmem hnd'
        hnoup' hord'
      rw [topoPass, if_neg h]
      refine ⟨IH.1.trans (List.eraseP_sublist u), ?_, IH.2.2.1, IH.2.2.2⟩
      refine IH.2.1.trans ?_
      rw [he, hu, List.append_assoc]
      exact List.Perm.append_left sor
        (by simpa using (@List.perm_middle Task node u₁ u₂).symm)

/-- Iterating a pointwise-related step builds a transitive chain. -/
theorem transGen_iterate_pred {α : Type} (r : α → α → Prop) (f : α → α)
    (hstep : ∀ x, r (f x) x) :
    ∀ (n : Nat) (x : α), Relation.TransGen r (f^[n + 1] x) x := by
  intro n
  induction n with
  | zero => intro x; exact Relation.TransGen.single (hstep x)
  | succ n ih =>
    intro x
    rw [Function.iterate_succ_apply']
    exact Relation.TransGen.head (hstep _) (ih x)

/-- A nonempty working set in which every task has an upstream
predecessor inside the set witnesses a cycle of the ambient task
collection. -/
theorem hasCycle_of_all_pred (l u : List Task) (hne : u ≠ [])
    (hsub : ∀ x ∈ u, x ∈ l)
    (hpred : ∀ x ∈ u, ∃ y ∈ u, y.task_id ∈ x.upstream_ids) :
    HasCycle l := by
  classical
  obtain ⟨x₀, hx₀⟩ := List.exists_mem_of_ne_nil u hne
  have hpred' : ∀ x : {t // t ∈ u}, ∃ y : {t // t ∈ u},
      y.1.task_id ∈ x.1.upstream_ids := by
    intro x
    obtain ⟨y, hy, hyid⟩ := hpred x.1 x.2
    exact ⟨⟨y, hy⟩, hyid⟩
  choose f hf using hpred'
  have hstep : ∀ x : {t // t ∈ u},
      (fun a b : {t // t ∈ u} => edgeIn l a.1 b.1) (f x) x :=
    fun x => ⟨hsub _ (f x).2, hsub _ x.2, hf x⟩
  obtain ⟨i, j, hij, heq⟩ := Fintype.exists_ne_map_eq_of_card_lt
    (fun i : Fin (u.length + 1) =>
      (⟨u.indexOf (f^[i.val] ⟨x₀, hx₀⟩).1,
        List.indexOf_lt_length.mpr (f^[i.val] ⟨x₀, hx₀⟩).2⟩ :
        Fin u.length))
    (by simp)
  have hval : u.indexOf (f^[i.val] ⟨x₀, hx₀⟩).1 =
      u.indexOf (f^[j.val] ⟨x₀, hx₀⟩).1 := congrArg Fin.val heq
  have hw1 : f^[i.val] (⟨x₀, hx₀⟩ : {t // t ∈ u}) = f^[j.val] ⟨x₀, hx₀⟩ :=
    Subtype.ext ((List.indexOf_inj (f^[i.val] ⟨x₀, hx₀⟩).2
      (f^[j.val] ⟨x₀, hx₀⟩).2).mp hval)
  have hexists : ∃ a b : Nat, a < b ∧
      f^[a] (⟨x₀, hx₀⟩ : {t // t ∈ u}) = f^[b] ⟨x₀, hx₀⟩ := by
    rcases Nat.lt_or_ge i.val j.val with h1 | h1
    · exact ⟨i.val, j.val, h1, hw1⟩
    · have hne2 : i.val ≠ j.val := fun e => hij (Fin.ext e)
      exact ⟨j.val, i.val, by omega, hw1.symm⟩
  obtain ⟨a, b, hab, hw⟩ := hexists
  obtain ⟨d, hd⟩ : ∃ d, b = d + 1 + a := ⟨b - a - 1, by omega⟩
  have hiter : f^[b] (⟨x₀, hx₀⟩ : {t // t ∈ u}) =
      f^[d + 1] (f^[a] ⟨x₀, hx₀⟩) := by
    rw [hd]; exact Function.iterate_add_apply f (d + 1) a _
  have hcyc : Relation.TransGen (fun a b : {t // t ∈ u} => edgeIn l a.1 b.1)
      (f^[a] ⟨x₀, hx₀⟩) (f^[a] ⟨x₀, hx₀⟩) := by
    have hch := transGen_iterate_pred
      (fun a b : {t // t ∈ u} => edgeIn l a.1 b.1) f hstep d (f^[a] ⟨x₀, hx₀⟩)
    rw [← hiter, ← hw] at hch
    exact hch
  exact ⟨(f^[a] (⟨x₀, hx₀⟩ : {t // t ∈ u})).1,
    Relation.TransGen.lift Subtype.val (fun _ _ hr => hr) hcyc⟩

/-- A topologically ordered permutation of a task collection rules out
cycles in it. -/
theorem not_hasCycle_of_perm_ordered (l out : List Task)
    (hperm : out.Perm l) (hord : TopoOrdered out) : ¬ HasCycle l := by
  rintro ⟨t, htg⟩
  have hbase : ∀ a b : Task, edgeIn l a b →
      out.indexOf a < out.indexOf b := by
    intro a b hr
    have ha : a ∈ out := hperm.mem_iff.mpr hr.1
    have hb : b ∈ out := hperm.mem_iff.mpr hr.2.1
    have hlta := List.indexOf_lt_length.mpr ha
    have hltb := List.indexOf_lt_length.mpr hb
    refine hord _ _ a b ?_ ?_ hr.2.2
    · rw [List.getElem?_eq_getElem hlta, List.getElem_indexOf hlta]
    · rw [List.getElem?_eq_getElem hltb, List.getElem_indexOf hltb]
  have hmono : ∀ a b : Task, Relation.TransGen (edgeIn l) a b →
      out.indexOf a < out.indexOf b := by
    intro a b htg'
    induction htg' with
    | single hr => exact hbase _ _ hr
    | tail _ hr ih => exact lt_trans ih (hbase _ _ hr)
  exact lt_irrefl _ (hmono t t htg)

/-- A rank function increasing along every upstream edge rules out
cycles. -/
theorem not_hasCycle_of_rank (l : List Task) (rank : Task → Nat)
    (h : ∀ a ∈ l, ∀ b ∈ l, a.task_id ∈ b.upstream_ids → rank a < rank b) :
    ¬ HasCycle l := by
  rintro ⟨t, htg⟩
  have hmono : ∀ a b : Task, Relation.TransGen (edgeIn l) a b →
      rank a < rank b := by
    intro a b htg'
    induction htg' with
    | single hr => exact h _ hr.1 _ hr.2.1 hr.2.2
    | tail _ hr ih => exact lt_trans ih (h _ hr.1 _ hr.2.1 hr.2.2)
  exact lt_irrefl _ (hmono t t htg)

/-- The working set keeps distinct ids along the loop: derived from
the permutation invariant. -/
theorem nodupIds_of_perm {l sor u : List Task} (hnd : NodupIds l)
    (hperm : (sor ++ u).Perm l) : NodupIds u := by
  have h1 : ((sor ++ u).map Task.task_id).Nodup :=
    ((hperm.map Task.task_id).nodup_iff).mpr hnd
  exact List.Nodup.sublist
    ((List.sublist_append_right sor u).map Task.task_id) h1

/-- If the loop returns a sorted output then that output is a
permutation of the original tasks and topologically ordered (invariant
preservation along the while loop). -/
theorem topoLoop_ok_inv (l : List Task) (hnd : NodupIds l) (did : String) :
    ∀ (n : Nat) (u sor out : List Task), u.length ≤ n →
    (sor ++ u).Perm l → NoUp sor u → TopoOrdered sor →
    topoLoop did u sor = Except.ok out → out.Perm l ∧ TopoOrdered out := by
  intro n
  induction n with
  | zero =>
    intro u sor out hlen hperm _ hord hok
    have hu : u = [] := List.length_eq_zero.mp (Nat.le_zero.mp hlen)
    subst hu
    rw [topoLoop] at hok
    simp only [List.isEmpty_nil, if_true, Except.ok.injEq] at hok
    subst hok
    exact ⟨by simpa using hperm, hord⟩
  | succ n ihn =>
    intro u sor out hlen hperm hnoup hord hok
    by_cases hu : u.isEmpty = true
    · have hu' : u = [] := List.isEmpty_iff.mp hu
      subst hu'
      rw [topoLoop] at hok
      simp only [List.isEmpty_nil, if_true, Except.ok.injEq] at hok
      subst hok
      exact ⟨by simpa using hperm, hord⟩
    · rw [topoLoop, if_neg hu] at hok
      by_cases hflag : (topoPass u u sor false).2.2 = true
      · rw [dif_pos hflag] at hok
        have hndu : NodupIds u := nodupIds_of_perm hnd hperm
        have hinv := topoPass_inv u u sor false (List.Nodup.of_map _ hndu)
          (fun x hx => hx) hndu hnoup hord
        have hlen' : (topoPass u u sor false).1.length ≤ n := by
          have := topoPass_progress u u sor
            (fun x hx => tidMem_of_mem hx) hflag
          omega
        exact ihn _ _ out hlen' (hinv.2.1.trans hperm) hinv.2.2.1
          hinv.2.2.2 hok
      · rw [dif_neg hflag] at hok
        cases hok

/-- Every error the loop produces carries the cycle message naming the
dag. -/
theorem topoLoop_error_msg (did : String) :
    ∀ (n : Nat) (u sor : List Task) (e : String), u.length ≤ n →
    topoLoop did u sor = Except.error e →
    e = "A cyclic dependency occurred in dag: " ++ did := by
  intro n
  induction n with
  | zero =>
    intro u sor e hlen herr
    have hu : u = [] := List.length_eq_zero.mp (Nat.le_zero.mp hlen)
    subst hu
    rw [topoLoop] at herr
    simp at herr
  | succ n ihn =>
    intro u sor e hlen herr
    by_cases hu : u.isEmpty = true
    · have hu' : u = [] := List.isEmpty_iff.mp hu
      subst hu'
      rw [topoLoop] at herr
      simp at herr
    · rw [topoLoop, if_neg hu] at herr
      by_cases hflag : (topoPass u u sor false).2.2 = true
      · rw [dif_pos hflag] at herr
        have hlen' : (topoPass u u sor false).1.length ≤ n := by
          have := topoPass_progress u u sor
            (fun x hx => tidMem_of_mem hx) hflag
          omega
        exact ihn _ _ e hlen' herr
      · rw [dif_neg hflag] at herr
        exact (Except.error.injEq _ _).mp herr.symm

/-- On an acyclic task collection the loop always terminates with a
sorted output. -/
theorem topoLoop_total (l : List Task) (hnd : NodupIds l)
    (hacy : ¬ HasCycle l) (did : String) :
    ∀ (n : Nat) (u sor : List Task), u.length ≤ n →
    (sor ++ u).Perm l → NoUp sor u → TopoOrdered sor →
    ∃ out, topoLoop did u sor = Except.ok out := by
  intro n
  induction n with
  | zero =>
    intro u sor hlen _ _ _
    have hu : u = [] := List.length_eq_zero.mp (Nat.le_zero.mp hlen)
    subst hu
    exact ⟨sor, by rw [topoLoop]; rfl⟩
  | succ n ihn =>
    intro u sor hlen hperm hnoup hord
    by_cases hu : u.isEmpty = true
    · have hu' : u = [] := List.isEmpty_iff.mp hu
      subst hu'
      exact ⟨sor, by rw [topoLoop]; rfl⟩
    · by_cases hflag : (topoPass u u sor false).2.2 = true
      · have hndu : NodupIds u := nodupIds_of_perm hnd hperm
        have hinv := topoPass_inv u u sor false (List.Nodup.of_map _ hndu)
          (fun x hx => hx) hndu hnoup hord
        have hlen' : (topoPass u u sor false).1.length ≤ n := by
          have := topoPass_progress u u sor
            (fun x hx => tidMem_of_mem hx) hflag
          omega
        obtain ⟨out, hout⟩ := ihn _ _ hlen' (hinv.2.1.trans hperm)
          hinv.2.2.1 hinv.2.2.2
        exact ⟨out, by rw [topoLoop, if_neg hu, dif_pos hflag]; exact hout⟩
      · exfalso
        have hstuck := topoPass_stuck u u sor (Bool.eq_false_iff.mpr hflag)
        have hne : u ≠ [] := fun e => hu (by rw [e]; rfl)
        have hsubl : ∀ x ∈ u, x ∈ l := fun x hx =>
          hperm.subset (List.mem_append.mpr (Or.inr hx))
        have hpred : ∀ x ∈ u, ∃ y ∈ u, y.task_id ∈ x.upstream_ids := by
          intro x hx
          have h1 := hstuck.2.2 x hx
          simp only [hasUnresolvedUpstream, List.any_eq_true] at h1
          obtain ⟨uid, huid, htm⟩ := h1
          simp only [tidMem, List.any_eq_true] at htm
          obtain ⟨y, hy, hyid⟩ := htm
          refine ⟨y, hy, ?_⟩
          rw [show y.task_id = uid from by simpa using hyid]
          exact huid
        exact hacy (hasCycle_of_all_pred l u hne hsubl hpred)

/-- C2: for every DAG with at least one task, well-formed (distinct
task ids, upstream ids resolvable within the DAG) and acyclic,
topological_sort returns a permutation of the full task set in which
every task appears after all of its upstream tasks. -/
theorem topological_sort_acyclic_correct (dag : DAG)
    (hne : dag.tasks ≠ [])
    (hnd : NodupIds dag.tasks)
    (hclosed : ∀ t ∈ dag.tasks, ∀ uid ∈ t.upstream_ids,
      tidMem uid dag.tasks = true)
    (hacy : ¬ HasCycle dag.tasks) :
    ∃ out, topological_sort dag = Except.ok out ∧ out.Perm dag.tasks ∧
      TopoOrdered out := by
  obtain ⟨out, hout⟩ := topoLoop_total dag.tasks hnd hacy dag.dag_id
    dag.tasks.length dag.tasks [] (le_refl _) (by simp)
    (fun y hy => absurd hy (List.not_mem_nil y))
    (fun i j x y hi hj hup => absurd hi (by simp))
  have hinv := topoLoop_ok_inv dag.tasks hnd dag.dag_id dag.tasks.length
    dag.tasks [] out (le_refl _) (by simp)
    (fun y hy => absurd hy (List.not_mem_nil y))
    (fun i j x y hi hj hup => absurd hi (by simp)) hout
  exact ⟨out, hout, hinv.1, hinv.2⟩

/-- C2 witness: on the concrete chain A to B to C, topological_sort
returns a permutation of the three tasks respecting the upstream
order. -/
theorem topological_sort_acyclic_witness :
    ∃ out, topological_sort chainDagABC = Except.ok out ∧
      out.Perm chainDagABC.tasks ∧ TopoOrdered out :=
  topological_sort_acyclic_correct chainDagABC (by decide)
    (by unfold NodupIds; decide) (by decide)
    (not_hasCycle_of_rank chainDagABC.tasks
      (fun t => (["A", "B", "C"] : List String).indexOf t.task_id)
      (by decide))

/-- C3: for every DAG with distinct task ids whose edge relation has a
cycle, topological_sort raises the cycle error naming the DAG and never
returns a partial ordering; moreover any pass that resolves zero tasks
while tasks remain makes the loop fail immediately with that error. -/
theorem topological_sort_cyclic_error (dag : DAG)
    (hnd : NodupIds dag.tasks)
    (hcyc : HasCycle dag.tasks) :
    topological_sort dag =
      Except.error ("A cyclic dependency occurred in dag: " ++ dag.dag_id) ∧
    ∀ (u sor : List Task), u ≠ [] →
      (topoPass u u sor false).2.2 = false →
      topoLoop dag.dag_id u sor =
        Except.error ("A cyclic dependency occurred in dag: " ++
          dag.dag_id) := by
  constructor
  · cases hres : topological_sort dag with
    | ok out =>
      exfalso
      have hinv := topoLoop_ok_inv dag.tasks hnd dag.dag_id
        dag.tasks.length dag.tasks [] out (le_refl _) (by simp)
        (fun y hy => absurd hy (List.not_mem_nil y))
        (fun i j x y hi hj hup => absurd hi (by simp)) hres
      exact not_hasCycle_of_perm_ordered dag.tasks out hinv.1 hinv.2 hcyc
    | error e =>
      have hmsg := topoLoop_error_msg dag.dag_id dag.tasks.length
        dag.tasks [] e (le_refl _) hres
      rw [hmsg]
  · intro u sor hune hflag
    have hu : ¬ (u.isEmpty = true) := fun h => hune (List.isEmpty_iff.mp h)
    rw [topoLoop, if_neg hu, dif_neg (by rw [hflag]; simp)]

/-- Task x of the two-task cycle. -/
def cycTaskX : Task :=
  { task_id := "x", upstream_ids := ["y"], downstream_ids := ["y"],
    retries := 0 }

/-- Task y of the two-task cycle. -/
def cycTaskY : Task :=
  { task_id := "y", upstream_ids := ["x"], downstream_ids := ["x"],
    retries := 0 }

/-- A DAG whose two tasks form a cycle. -/
def cycDagXY : DAG :=
  DAG.mk "cyc" ScheduleInterval.once utcTz [cycTaskX, cycTaskY] false []

/-- C3 witness: on the concrete two-task cycle, topological_sort fails
with the cycle error naming the DAG. -/
theorem topological_sort_cyclic_witness :
    topological_sort cycDagXY =
      Except.error ("A cyclic dependency occurred in dag: " ++
        cycDagXY.dag_id) := by
  have hcyc : HasCycle cycDagXY.tasks := by
    refine ⟨cycTaskX, Relation.TransGen.head
      (⟨?_, ?_, ?_⟩ : edgeIn cycDagXY.tasks cycTaskX cycTaskY)
      (Relation.TransGen.single ⟨?_, ?_, ?_⟩)⟩
    all_goals decide
  exact (topological_sort_cyclic_error cycDagXY
    (by unfold NodupIds; decide) hcyc).1

end Airflow
